import Mathlib

set_option maxRecDepth 8000

namespace Prompt100

/- Shallow embedding of the placeholder-extraction (extractFields),
template-composition (buildPrompt) and section-splitting
(parsePromptSections) core of the repository.  Strings are modelled as
List Char; the JavaScript regular-expression scans are modelled by
equivalent character-list scans, and String.prototype.replace is modelled
together with its dollar-pattern substitution rules. -/

/-- Left curly brace character, named by code point. -/
def lbrace : Char := Char.ofNat 123

/-- Right curly brace character, named by code point. -/
def rbrace : Char := Char.ofNat 125

/-- Backquote character, one of the special replacement patterns of
JavaScript String.prototype.replace. -/
def backquoteChar : Char := Char.ofNat 96

/-- Single-quote character, one of the special replacement patterns of
JavaScript String.prototype.replace. -/
def squoteChar : Char := Char.ofNat 39

/-- Whitespace recognised by the JavaScript String.prototype.trim calls in
extractFields and parsePromptSections: space, tab, line terminators and the
common Unicode space characters. -/
def isJsSpace (c : Char) : Bool :=
  c == ' ' || c == '\t' || c == '\n' || c == '\r' ||
  c == Char.ofNat 11 || c == Char.ofNat 12 || c == Char.ofNat 160 ||
  c == Char.ofNat 0x2028 || c == Char.ofNat 0x2029 || c == Char.ofNat 0x3000 ||
  c == Char.ofNat 0xfeff

/-- JavaScript String.prototype.trim on the List Char model. -/
def jsTrim (l : List Char) : List Char :=
  ((l.dropWhile isJsSpace).reverse.dropWhile isJsSpace).reverse

/-- Characters admitted by the inner character class of the extraction
regex: everything except a closing square bracket and the two curly braces
(an opening square bracket is allowed, mirroring the class in the source). -/
def innerChar (c : Char) : Bool := !(c == ']' || c == lbrace || c == rbrace)

/-- Attempt of the token regex just after an opening delimiter: the greedy
run of inner characters must be non-empty and must be followed by a closing
square bracket or a closing curly brace.  Returns the inner text, the
closing delimiter and the remainder of the input. -/
def matchToken (rest : List Char) : Option (List Char × Char × List Char) :=
  match rest.dropWhile innerChar with
  | [] => none
  | c :: rem =>
    if rest.takeWhile innerChar = [] then none
    else if c = ']' ∨ c = rbrace then some (rest.takeWhile innerChar, c, rem)
    else none

/-- Advance the current line prefix over a stretch of consumed characters,
resetting at each newline; this tracks the substring between the last
newline and the scan position that extractFields uses for label inference. -/
def updLine (lp : List Char) : List Char → List Char
  | [] => lp
  | c :: rest => if c = '\n' then updLine [] rest else updLine (lp ++ [c]) rest

/-- Global scan of the extraction regex, fuel-recursive so that it reduces
in the kernel.  Each emitted triple is (same-line text before the token,
matched token including delimiters, inner text).  On a failed attempt at an
opening delimiter the scan resumes one character later, exactly like the
regex engine. -/
def scanTokensAux : Nat → List Char → List Char → List (List Char × List Char × List Char)
  | 0, _, _ => []
  | fuel + 1, lp, s =>
    match s with
    | [] => []
    | c :: rest =>
      if c = '[' ∨ c = lbrace then
        match matchToken rest with
        | some (inner, cl, rem) =>
          (lp, c :: (inner ++ [cl]), inner) ::
            scanTokensAux fuel (updLine lp (c :: (inner ++ [cl]))) rem
        | none => scanTokensAux fuel (lp ++ [c]) rest
      else if c = '\n' then scanTokensAux fuel [] rest
      else scanTokensAux fuel (lp ++ [c]) rest

/-- All token matches of the extraction regex over the whole input. -/
def scanTokens (s : List Char) : List (List Char × List Char × List Char) :=
  scanTokensAux s.length [] s

/-- Field record produced by extractFields (the variant that also carries a
hint). -/
structure FormField where
  id : List Char
  label : List Char
  placeholder : List Char
  hint : List Char
  original : List Char
deriving DecidableEq

/-- First character of the inner text is a circled number glyph or an ASCII
digit, the first exclusion rule of extractFields. -/
def isCircledOrDigit (c : Char) : Bool :=
  ('①' ≤ c && c ≤ '⑩') || ('0' ≤ c && c ≤ '9')

/-- Exclusion test of extractFields: inner text starting with a circled
number or digit, or exactly one of the two reserved marker words. -/
def isExcluded (inner : List Char) : Bool :=
  (match inner with
   | [] => false
   | c :: _ => isCircledOrDigit c) ||
  inner == "条件".toList || inner == "出力形式".toList

/-- Bullet and marker characters stripped from the front of the label text. -/
def isLeadMarker (c : Char) : Bool :=
  c == '-' || c == '・' || c == '※' || c == '【' || c == '】'

/-- Strip a single leading bullet or marker character, as the first
non-global replace of the label pipeline does. -/
def stripLeadingMarker : List Char → List Char
  | [] => []
  | c :: rest => if isLeadMarker c then rest else c :: rest

/-- Strip a single trailing full-width or ASCII colon, as the second
replace of the label pipeline does. -/
def stripTrailingColon (l : List Char) : List Char :=
  match l.getLast? with
  | none => l
  | some c => if c == '：' || c == ':' then l.dropLast else l

/-- Label text derived from the same-line prefix: trim, strip one leading
marker, strip one trailing colon, trim again. -/
def beforeBracketOf (lp : List Char) : List Char :=
  jsTrim (stripTrailingColon (stripLeadingMarker (jsTrim lp)))

/-- Sequential field identifier. -/
def fieldId (n : Nat) : List Char := "field_".toList ++ Nat.toDigits 10 n

/-- Label of a field: the processed same-line prefix when non-empty,
otherwise the generic numbered label. -/
def labelOf (n : Nat) (lp : List Char) : List Char :=
  if beforeBracketOf lp = [] then "入力 ".toList ++ Nat.toDigits 10 (n + 1)
  else beforeBracketOf lp

/-- Inner text starts with the example marker in either punctuation form. -/
def startsWithRei : List Char → Bool
  | a :: b :: _ => a == '例' && (b == '：' || b == ':')
  | _ => false

/-- Placeholder of a field, by the four-way branch of extractFields. -/
def placeholderOf (inner : List Char) : List Char :=
  if startsWithRei inner then inner.drop 2
  else if inner = "入力".toList then "ここに入力してください".toList
  else if inner.contains '/' then inner
  else inner

/-- Hint of a field, by the same four-way branch. -/
def hintOf (inner : List Char) : List Char :=
  if startsWithRei inner then "例：".toList ++ inner.drop 2
  else if inner = "入力".toList then "自由に入力してください".toList
  else if inner.contains '/' then inner ++ " から選んでください".toList
  else inner ++ " を入力してください".toList

/-- Assemble one field from the n-th accepted token. -/
def mkField (n : Nat) (lp orig inner : List Char) : FormField :=
  ⟨fieldId n, labelOf n lp, placeholderOf inner, hintOf inner, orig⟩

/-- Fold the scanned tokens into fields, skipping excluded tokens without
consuming an identifier number, exactly like the while loop of
extractFields. -/
def mkFields : Nat → List (List Char × List Char × List Char) → List FormField
  | _, [] => []
  | n, (lp, orig, inner) :: rest =>
    if isExcluded inner = true then mkFields n rest
    else mkField n lp orig inner :: mkFields (n + 1) rest

/-- Embedding of extractFields. -/
def extractFields (content : List Char) : List FormField :=
  mkFields 0 (scanTokens content)

/-- First-occurrence search of a pattern: returns the text before and after
the first occurrence, or none when the pattern does not occur. -/
def findSplit (pat : List Char) : List Char → Option (List Char × List Char)
  | [] => if pat = [] then some ([], []) else none
  | c :: rest =>
    if pat.isPrefixOf (c :: rest) then some ([], (c :: rest).drop pat.length)
    else
      match findSplit pat rest with
      | some (pre, post) => some (c :: pre, post)
      | none => none

/-- Dollar-pattern expansion of the replacement string performed by
JavaScript String.prototype.replace with a string search value: a doubled
dollar collapses to one dollar, dollar-ampersand inserts the matched text,
dollar-backquote the text before the match and dollar-quote the text after
it; any other dollar stays literal. -/
def getSubstitution (matched pre post : List Char) : List Char → List Char
  | [] => []
  | [c] => [c]
  | c :: d :: rest =>
    if c = '$' then
      if d = '$' then '$' :: getSubstitution matched pre post rest
      else if d = '&' then matched ++ getSubstitution matched pre post rest
      else if d = backquoteChar then pre ++ getSubstitution matched pre post rest
      else if d = squoteChar then post ++ getSubstitution matched pre post rest
      else c :: getSubstitution matched pre post (d :: rest)
    else c :: getSubstitution matched pre post (d :: rest)

/-- JavaScript String.prototype.replace with string arguments: replace the
first occurrence of the pattern, expanding dollar patterns in the
replacement. -/
def jsReplace (s pat repl : List Char) : List Char :=
  match findSplit pat s with
  | none => s
  | some (pre, post) => pre ++ getSubstitution pat pre post repl ++ post

/-- Association-list model of the FieldValues record; a missing key yields
the empty string, which the composer treats like an absent value. -/
def getValue (values : List (List Char × List Char)) (id : List Char) : List Char :=
  match values.find? (fun p => p.1 == id) with
  | some p => p.2
  | none => []

/-- Value substituted for a field: the user value when present and
non-empty, otherwise the original token text, per the short-circuit in
buildPrompt. -/
def chosenVal (values : List (List Char × List Char)) (f : FormField) : List Char :=
  if getValue values f.id = [] then f.original else getValue values f.id

/-- Embedding of buildPrompt: fold over the fields in extraction order,
each step replacing the first occurrence of the original token in the
working copy. -/
def buildPrompt (content : List Char) (fields : List FormField)
    (values : List (List Char × List Char)) : List Char :=
  fields.foldl (fun result f => jsReplace result f.original (chosenVal values f)) content

/-- Modelled from the spec: literal first-occurrence substitution, the
replacement notion the specification describes (no dollar-pattern
expansion).  Used to compare the composer against the spec wording. -/
def replaceFirstLiteral (s pat val : List Char) : List Char :=
  match findSplit pat s with
  | none => s
  | some (pre, post) => pre ++ val ++ post

/-- Modelled from the spec: the composition algorithm as the specification
words it, substituting each chosen value literally. -/
def composeSpec (content : List Char) (fields : List FormField)
    (values : List (List Char × List Char)) : List Char :=
  fields.foldl (fun result f => replaceFirstLiteral result f.original (chosenVal values f)) content

/-- Section record produced by parsePromptSections. -/
structure PromptSection where
  title : List Char
  content : List Char
  icon : List Char
deriving DecidableEq

/-- Icon lookup of the section icon map, with the generic document icon as
default. -/
def sectionIcon (title : List Char) : List Char :=
  if title = "あなたの役割".toList then "🤖".toList
  else if title = "条件".toList then "📋".toList
  else if title = "出力形式".toList then "📤".toList
  else "📄".toList

/-- Lookahead test of the split regex: the position starts a marker heading,
that is an opening lens bracket, a non-empty run of characters other than
the closing lens bracket, and the closing lens bracket. -/
def isBoundaryB (s : List Char) : Bool :=
  match s with
  | [] => false
  | c :: rest =>
    c == '【' && !(rest.takeWhile (fun d => !(d == '】'))).isEmpty &&
      !(rest.dropWhile (fun d => !(d == '】'))).isEmpty

/-- Lookahead split of the body: a new chunk starts at every boundary
position except position zero (the split never emits a leading empty
chunk for a zero-width match at the start, per the JavaScript split
algorithm). -/
def splitAux (acc : List Char) : List Char → List (List Char)
  | [] => [acc]
  | c :: rest =>
    if isBoundaryB (c :: rest) = true ∧ acc ≠ [] then acc :: splitAux [c] rest
    else splitAux (acc ++ [c]) rest

/-- Anchored marker match at the start of a chunk: title between the lens
brackets, then an optional single newline, then the body text. -/
def markerMatch (part : List Char) : Option (List Char × List Char) :=
  match part with
  | [] => none
  | c :: rest =>
    if c = '【' then
      match rest.dropWhile (fun d => !(d == '】')) with
      | [] => none
      | _ :: after =>
        if rest.takeWhile (fun d => !(d == '】')) = [] then none
        else
          some (rest.takeWhile (fun d => !(d == '】')),
            match after with
            | [] => []
            | a :: tl => if a = '\n' then tl else after)
    else none

/-- Turn one split chunk into an optional section, per the loop body of
parsePromptSections: a marker chunk keeps its title and trimmed body and is
dropped when the body trims to nothing; a markerless chunk becomes the
default role section when it trims to something non-empty. -/
def sectionOfPart (part : List Char) : Option PromptSection :=
  match markerMatch part with
  | some (title, body) =>
    if jsTrim body = [] then none
    else some ⟨title, jsTrim body, sectionIcon title⟩
  | none =>
    if jsTrim part = [] then none
    else some ⟨"あなたの役割".toList, jsTrim part, "🤖".toList⟩

/-- Embedding of parsePromptSections. -/
def parsePromptSections (content : List Char) : List PromptSection :=
  (splitAux [] content).filterMap sectionOfPart

/- ------------------------------------------------------------------ -/
/- Lemmas about first-occurrence replacement                           -/
/- ------------------------------------------------------------------ -/

theorem isPrefixOf_drop (p : List Char) : ∀ l : List Char,
    p.isPrefixOf l = true → l = p ++ l.drop p.length := by
  induction p with
  | nil => intro l _; simp
  | cons a as ih =>
    intro l h
    cases l with
    | nil => simp [List.isPrefixOf] at h
    | cons b bs =>
      simp only [List.isPrefixOf, Bool.and_eq_true, beq_iff_eq] at h
      obtain ⟨rfl, h2⟩ := h
      simp only [List.length_cons, List.drop_succ_cons, List.cons_append]
      exact congrArg (List.cons a) (ih bs h2)

theorem findSplit_eq (pat : List Char) (s : List Char) : ∀ pre post : List Char,
    findSplit pat s = some (pre, post) → s = pre ++ pat ++ post := by
  induction s with
  | nil =>
    intro pre post h
    unfold findSplit at h
    by_cases hp : pat = []
    · rw [if_pos hp] at h
      simp only [Option.some.injEq, Prod.mk.injEq] at h
      obtain ⟨rfl, rfl⟩ := h
      simp [hp]
    · rw [if_neg hp] at h
      simp at h
  | cons c rest ih =>
    intro pre post h
    unfold findSplit at h
    by_cases hp : pat.isPrefixOf (c :: rest) = true
    · rw [if_pos hp] at h
      simp only [Option.some.injEq, Prod.mk.injEq] at h
      obtain ⟨rfl, rfl⟩ := h
      simpa using isPrefixOf_drop pat (c :: rest) hp
    · rw [if_neg hp] at h
      cases hf : findSplit pat rest with
      | none => rw [hf] at h; simp at h
      | some pr =>
        obtain ⟨pre1, post1⟩ := pr
        rw [hf] at h
        simp only [Option.some.injEq, Prod.mk.injEq] at h
        obtain ⟨rfl, rfl⟩ := h
        simp only [List.cons_append]
        exact congrArg (List.cons c) (ih pre1 post1 hf)

theorem getSubstitution_eq_self (m pre post : List Char) : ∀ repl : List Char,
    '$' ∉ repl → getSubstitution m pre post repl = repl := by
  intro repl
  induction repl with
  | nil => intro _; rfl
  | cons c rest ih =>
    intro h
    have hc : ¬ c = '$' := fun hh => h (by rw [hh]; exact List.mem_cons_self '$' rest)
    cases rest with
    | nil => rfl
    | cons d rs =>
      have hr : '$' ∉ d :: rs := fun hh => h (List.mem_cons_of_mem c hh)
      show getSubstitution m pre post (c :: d :: rs) = c :: d :: rs
      simp only [getSubstitution]
      rw [if_neg hc]
      exact congrArg (List.cons c) (ih hr)

theorem jsReplace_eq_literal (s pat repl : List Char) (h : '$' ∉ repl) :
    jsReplace s pat repl = replaceFirstLiteral s pat repl := by
  unfold jsReplace replaceFirstLiteral
  cases hf : findSplit pat s with
  | none => rfl
  | some pr =>
    obtain ⟨pre, post⟩ := pr
    show pre ++ getSubstitution pat pre post repl ++ post = pre ++ repl ++ post
    rw [getSubstitution_eq_self pat pre post repl h]

theorem jsReplace_self (s pat : List Char) (h : '$' ∉ pat) : jsReplace s pat pat = s := by
  rw [jsReplace_eq_literal s pat pat h]
  unfold replaceFirstLiteral
  cases hf : findSplit pat s with
  | none => rfl
  | some pr =>
    obtain ⟨pre, post⟩ := pr
    exact (findSplit_eq pat s pre post hf).symm

theorem buildPrompt_empty_aux (fields : List FormField) :
    ∀ content, (∀ f ∈ fields, '$' ∉ f.original) →
      buildPrompt content fields [] = content := by
  induction fields with
  | nil => intro content _; rfl
  | cons a l ih =>
    intro content h
    have ha : '$' ∉ a.original := h a (List.mem_cons_self a l)
    have hstep : chosenVal [] a = a.original := rfl
    show buildPrompt (jsReplace content a.original (chosenVal [] a)) l [] = content
    rw [hstep, jsReplace_self content a.original ha]
    exact ih content (fun f hf => h f (List.mem_cons_of_mem a hf))

theorem buildPrompt_eq_spec_aux (values : List (List Char × List Char))
    (fields : List FormField) :
    ∀ content, (∀ f ∈ fields, '$' ∉ chosenVal values f) →
      buildPrompt content fields values = composeSpec content fields values := by
  induction fields with
  | nil => intro content _; rfl
  | cons a l ih =>
    intro content h
    have ha : '$' ∉ chosenVal values a := h a (List.mem_cons_self a l)
    show buildPrompt (jsReplace content a.original (chosenVal values a)) l values =
      composeSpec (replaceFirstLiteral content a.original (chosenVal values a)) l values
    rw [jsReplace_eq_literal content a.original (chosenVal values a) ha]
    exact ih _ (fun f hf => h f (List.mem_cons_of_mem a hf))

/- ------------------------------------------------------------------ -/
/- Claim C1                                                            -/
/- ------------------------------------------------------------------ -/

/-- C1 counterexample: the claim that composing with empty FieldValues
returns the body for every body fails on the body consisting of the single
token of two dollar signs: the default value is passed through the
dollar-pattern expansion of String.replace, which collapses the doubled
dollar, so the composer returns a different string. -/
theorem C1_counterexample :
    buildPrompt "[$$]".toList (extractFields "[$$]".toList) [] = "[$]".toList ∧
    "[$]".toList ≠ "[$$]".toList := by
  constructor
  · decide
  · decide

/-- C1 (amended): for every body none of whose extracted tokens contains a
dollar character, composing with an empty FieldValues mapping returns
exactly the original body (identity substitution of each field's original
token). -/
theorem C1_theorem (body : List Char)
    (h : ∀ f ∈ extractFields body, '$' ∉ f.original) :
    buildPrompt body (extractFields body) [] = body :=
  buildPrompt_empty_aux (extractFields body) body h

/-- C1 witness: the amended idempotence at a concrete dollar-free body. -/
theorem C1_witness :
    buildPrompt "Hi [name]!".toList (extractFields "Hi [name]!".toList) [] =
      "Hi [name]!".toList :=
  C1_theorem "Hi [name]!".toList (by decide)

/- ------------------------------------------------------------------ -/
/- Claim C2                                                            -/
/- ------------------------------------------------------------------ -/

/-- C2 counterexample: buildPrompt does not in general replace the token
with the user-supplied value itself: with the value consisting of a dollar
sign and an ampersand, String.replace expands the pattern to the matched
token, so the composed text differs from the literal first-occurrence
substitution the claim describes. -/
theorem C2_counterexample :
    buildPrompt "u [q] w".toList (extractFields "u [q] w".toList)
      [("field_0".toList, "$&".toList)] = "u [q] w".toList ∧
    composeSpec "u [q] w".toList (extractFields "u [q] w".toList)
      [("field_0".toList, "$&".toList)] = "u $& w".toList ∧
    buildPrompt "u [q] w".toList (extractFields "u [q] w".toList)
      [("field_0".toList, "$&".toList)] ≠
      composeSpec "u [q] w".toList (extractFields "u [q] w".toList)
        [("field_0".toList, "$&".toList)] := by
  refine ⟨by decide, by decide, by decide⟩

/-- C2 (amended): provided no substituted value contains a dollar
character, buildPrompt processes the fields in extraction order and, for
each field, replaces the first remaining occurrence of its original token
in the working copy with the user-supplied value when present and
non-empty, and with the original token text itself otherwise; replacement
is first-match, not global.  In general the substituted value is first
passed through the replacement-pattern expansion of String.replace. -/
theorem C2_theorem (content : List Char) (fields : List FormField)
    (values : List (List Char × List Char))
    (h : ∀ f ∈ fields, '$' ∉ chosenVal values f) :
    buildPrompt content fields values = composeSpec content fields values :=
  buildPrompt_eq_spec_aux values fields content h

/-- C2 witness: the amended composition equality at a concrete body with a
filled and an empty value. -/
theorem C2_witness :
    buildPrompt "[a] or [b]".toList (extractFields "[a] or [b]".toList)
      [("field_0".toList, "yes".toList)] =
    composeSpec "[a] or [b]".toList (extractFields "[a] or [b]".toList)
      [("field_0".toList, "yes".toList)] :=
  C2_theorem _ _ _ (by decide)

/- ------------------------------------------------------------------ -/
/- Lemmas about the token scan                                         -/
/- ------------------------------------------------------------------ -/

theorem matchToken_eq (rest : List Char) (inner : List Char) (cl : Char)
    (rem : List Char) (h : matchToken rest = some (inner, cl, rem)) :
    rest = inner ++ cl :: rem ∧ inner ≠ [] ∧ (cl = ']' ∨ cl = rbrace) ∧
      ∀ ch ∈ inner, innerChar ch = true := by
  unfold matchToken at h
  cases hd : rest.dropWhile innerChar with
  | nil => rw [hd] at h; simp at h
  | cons c rem2 =>
    rw [hd] at h
    dsimp only at h
    by_cases ht : rest.takeWhile innerChar = []
    · rw [if_pos ht] at h; simp at h
    · rw [if_neg ht] at h
      by_cases hc : c = ']' ∨ c = rbrace
      · rw [if_pos hc] at h
        simp only [Option.some.injEq, Prod.mk.injEq] at h
        obtain ⟨rfl, rfl, rfl⟩ := h
        refine ⟨?_, ht, hc, fun ch hch => List.mem_takeWhile_imp hch⟩
        conv_lhs => rw [← List.takeWhile_append_dropWhile innerChar rest]
        rw [hd]
      · rw [if_neg hc] at h; simp at h

theorem matchToken_length (rest : List Char) (inner : List Char) (cl : Char)
    (rem : List Char) (h : matchToken rest = some (inner, cl, rem)) :
    rem.length < rest.length := by
  obtain ⟨heq, hne, -, -⟩ := matchToken_eq rest inner cl rem h
  have := congrArg List.length heq
  simp only [List.length_append, List.length_cons] at this
  omega

theorem scanTokensAux_nil (fuel : Nat) (lp : List Char) :
    scanTokensAux fuel lp [] = [] := by
  cases fuel <;> rfl

theorem scanTokensAux_cons (fuel : Nat) (lp : List Char) (c : Char)
    (rest : List Char) :
    scanTokensAux (fuel + 1) lp (c :: rest) =
      if c = '[' ∨ c = lbrace then
        match matchToken rest with
        | some (inner, cl, rem) =>
          (lp, c :: (inner ++ [cl]), inner) ::
            scanTokensAux fuel (updLine lp (c :: (inner ++ [cl]))) rem
        | none => scanTokensAux fuel (lp ++ [c]) rest
      else if c = '\n' then scanTokensAux fuel [] rest
      else scanTokensAux fuel (lp ++ [c]) rest := rfl

theorem scanTokensAux_sound (fuel : Nat) : ∀ lp s t, t ∈ scanTokensAux fuel lp s →
    ∃ o inner cl, t.2.1 = o :: (inner ++ [cl]) ∧ t.2.2 = inner ∧
      (o = '[' ∨ o = lbrace) ∧ (cl = ']' ∨ cl = rbrace) ∧ inner ≠ [] ∧
      ∀ ch ∈ inner, innerChar ch = true := by
  induction fuel with
  | zero => intro lp s t h; simp [scanTokensAux] at h
  | succ f ih =>
    intro lp s t h
    cases s with
    | nil => rw [scanTokensAux_nil] at h; simp at h
    | cons c rest =>
      rw [scanTokensAux_cons] at h
      by_cases hc : c = '[' ∨ c = lbrace
      · rw [if_pos hc] at h
        cases hm : matchToken rest with
        | none => rw [hm] at h; exact ih _ _ _ h
        | some tr =>
          obtain ⟨inner, cl, rem⟩ := tr
          rw [hm] at h
          rcases List.mem_cons.mp h with heq | hmem
          · obtain ⟨-, hne, hcl, hall⟩ := matchToken_eq rest inner cl rem hm
            exact ⟨c, inner, cl, by rw [heq], by rw [heq], hc, hcl, hne, hall⟩
          · exact ih _ _ _ hmem
      · rw [if_neg hc] at h
        by_cases hn : c = '\n'
        · rw [if_pos hn] at h; exact ih _ _ _ h
        · rw [if_neg hn] at h; exact ih _ _ _ h

theorem mkFields_sound : ∀ trips n f, f ∈ mkFields n trips →
    ∃ lp orig inner, (lp, orig, inner) ∈ trips ∧ isExcluded inner = false ∧
      f.original = orig := by
  intro trips
  induction trips with
  | nil => intro n f h; simp [mkFields] at h
  | cons t ts ih =>
    intro n f h
    obtain ⟨lp, orig, inner⟩ := t
    unfold mkFields at h
    by_cases he : isExcluded inner = true
    · rw [if_pos he] at h
      obtain ⟨lp1, orig1, inner1, hmem, hex, horig⟩ := ih n f h
      exact ⟨lp1, orig1, inner1, List.mem_cons_of_mem _ hmem, hex, horig⟩
    · rw [if_neg he] at h
      rcases List.mem_cons.mp h with heq | hmem
      · exact ⟨lp, orig, inner, List.mem_cons_self _ _,
          Bool.not_eq_true _ ▸ he, by rw [heq]; rfl⟩
      · obtain ⟨lp1, orig1, inner1, hmem1, hex, horig⟩ := ih (n + 1) f hmem
        exact ⟨lp1, orig1, inner1, List.mem_cons_of_mem _ hmem1, hex, horig⟩

theorem extractFields_sound (s : List Char) (f : FormField)
    (h : f ∈ extractFields s) :
    ∃ o inner cl, f.original = o :: (inner ++ [cl]) ∧
      (o = '[' ∨ o = lbrace) ∧ (cl = ']' ∨ cl = rbrace) ∧ inner ≠ [] ∧
      (∀ ch ∈ inner, innerChar ch = true) ∧ isExcluded inner = false := by
  obtain ⟨lp, orig, inner, hmem, hex, horig⟩ := mkFields_sound _ _ _ h
  obtain ⟨o, inner1, cl, h1, h2, ho, hcl, hne, hall⟩ :=
    scanTokensAux_sound _ _ _ _ hmem
  simp only at h1 h2
  exact ⟨o, inner1, cl, by rw [horig, h1], ho, hcl, hne, hall, h2 ▸ hex⟩

/- ------------------------------------------------------------------ -/
/- Claim C3                                                            -/
/- ------------------------------------------------------------------ -/

/-- C3 counterexample: the body consisting of the two-character token of an
opening and a closing square bracket yields no field at all: the token
grammar requires at least one inner character, so the claim that it yields
a field with empty placeholder is false. -/
theorem C3_counterexample : extractFields "[]".toList = [] := by decide

/-- C3 (amended): the extraction regex requires at least one inner
character, so a bracket pair with empty inner text is never matched: every
extracted field's original token has at least three characters (opening
delimiter, non-empty inner text, closing delimiter). -/
theorem C3_theorem (s : List Char) (f : FormField) (h : f ∈ extractFields s) :
    3 ≤ f.original.length := by
  obtain ⟨o, inner, cl, horig, -, -, hne, -, -⟩ := extractFields_sound s f h
  rw [horig]
  simp only [List.length_cons, List.length_append, List.length_singleton]
  have : 0 < inner.length := List.length_pos.mpr hne
  omega

/-- C3 witness: the minimal-length bound at a concrete extracted field. -/
theorem C3_witness :
    3 ≤ (FormField.mk "field_0".toList "入力 1".toList "ab".toList
      "ab を入力してください".toList "[ab]".toList).original.length :=
  C3_theorem "[ab]".toList _ (by decide)

/- ------------------------------------------------------------------ -/
/- Claim C4                                                            -/
/- ------------------------------------------------------------------ -/

/-- C4 counterexample: a span opened with a square bracket and closed with
a curly brace is accepted as a token, contradicting the claim that
mismatched delimiters are not a token: the delimiter classes of the regex
are independent. -/
theorem C4_counterexample :
    extractFields "[a\x7d".toList =
      [⟨"field_0".toList, "入力 1".toList, "a".toList,
        "a を入力してください".toList, "[a\x7d".toList⟩] := by decide

/-- C4 (amended): a placeholder token is any span opened by a square
bracket or curly brace and closed by a closing square bracket or closing
curly brace in any combination (the opener and closer need not match),
whose non-empty inner text contains no closing square bracket and no curly
brace (an opening square bracket may appear inside). -/
theorem C4_theorem (s : List Char) (f : FormField) (h : f ∈ extractFields s) :
    (f.original.head? = some '[' ∨ f.original.head? = some lbrace) ∧
    (f.original.getLast? = some ']' ∨ f.original.getLast? = some rbrace) ∧
    f.original.tail.dropLast ≠ [] ∧
    ∀ ch ∈ f.original.tail.dropLast, ch ≠ ']' ∧ ch ≠ lbrace ∧ ch ≠ rbrace := by
  obtain ⟨o, inner, cl, horig, ho, hcl, hne, hall, -⟩ := extractFields_sound s f h
  have htail : f.original.tail.dropLast = inner := by
    rw [horig]
    show (inner ++ [cl]).dropLast = inner
    exact List.dropLast_concat ..
  refine ⟨?_, ?_, ?_, ?_⟩
  · rw [horig]; rcases ho with h1 | h1 <;> [left; right] <;> rw [h1] <;> rfl
  · rw [horig]
    show ((o :: inner) ++ [cl]).getLast? = some ']' ∨
      ((o :: inner) ++ [cl]).getLast? = some rbrace
    rw [List.getLast?_concat]
    rcases hcl with h1 | h1 <;> [left; right] <;> rw [h1]
  · rw [htail]; exact hne
  · rw [htail]
    intro ch hch
    have hic := hall ch hch
    simp only [innerChar, Bool.not_eq_eq_eq_not, Bool.not_true, Bool.or_eq_false_iff,
      beq_eq_false_iff_ne, ne_eq] at hic
    exact ⟨hic.1.1, hic.1.2, hic.2⟩

/-- C4 witness: the token shape at the concrete mismatched-delimiter field. -/
theorem C4_witness :
    ((FormField.mk "field_0".toList "入力 1".toList "a".toList
        "a を入力してください".toList "[a\x7d".toList).original.head? = some '[' ∨
      (FormField.mk "field_0".toList "入力 1".toList "a".toList
        "a を入力してください".toList "[a\x7d".toList).original.head? = some lbrace) ∧
    ((FormField.mk "field_0".toList "入力 1".toList "a".toList
        "a を入力してください".toList "[a\x7d".toList).original.getLast? = some ']' ∨
      (FormField.mk "field_0".toList "入力 1".toList "a".toList
        "a を入力してください".toList "[a\x7d".toList).original.getLast? = some rbrace) ∧
    (FormField.mk "field_0".toList "入力 1".toList "a".toList
      "a を入力してください".toList "[a\x7d".toList).original.tail.dropLast ≠ [] ∧
    ∀ ch ∈ (FormField.mk "field_0".toList "入力 1".toList "a".toList
      "a を入力してください".toList "[a\x7d".toList).original.tail.dropLast,
        ch ≠ ']' ∧ ch ≠ lbrace ∧ ch ≠ rbrace :=
  C4_theorem "[a\x7d".toList _ (by decide)

/- ------------------------------------------------------------------ -/
/- Claim C6                                                            -/
/- ------------------------------------------------------------------ -/

/-- C6: tokens whose inner text begins with a circled-number glyph or an
ASCII digit, or whose inner text is exactly one of the two reserved marker
words, are skipped: the scenario body of a reserved marker, a digit-leading
token and a brace-delimited reserved marker yields no field, and in general
the inner text of every emitted field (the original token without its
delimiters) fails the exclusion test. -/
theorem C6_theorem :
    extractFields "[条件] [1 done] \x7b出力形式\x7d".toList = [] ∧
    ∀ s f, f ∈ extractFields s → isExcluded f.original.tail.dropLast = false := by
  refine ⟨by decide, ?_⟩
  intro s f h
  obtain ⟨o, inner, cl, horig, -, -, -, -, hex⟩ := extractFields_sound s f h
  have htail : f.original.tail.dropLast = inner := by
    rw [horig]
    show (inner ++ [cl]).dropLast = inner
    exact List.dropLast_concat ..
  rw [htail]; exact hex

/-- C6 witness: the exclusion test fails on the inner text of a concrete
emitted field. -/
theorem C6_witness :
    isExcluded (FormField.mk "field_0".toList "入力 1".toList "xy".toList
      "xy を入力してください".toList "[xy]".toList).original.tail.dropLast = false :=
  C6_theorem.2 "[xy]".toList _ (by decide)

/- ------------------------------------------------------------------ -/
/- Claim C7                                                            -/
/- ------------------------------------------------------------------ -/

/-- C7: the example-placeholder scenario: the body with a colon-terminated
lead text and an example-marked token yields exactly one field, labelled
with the lead text after stripping the trailing colon, whose placeholder is
the inner text after the example marker. -/
theorem C7_theorem :
    extractFields "Describe: [例：a short summary]".toList =
      [⟨"field_0".toList, "Describe".toList, "a short summary".toList,
        "例：a short summary".toList, "[例：a short summary]".toList⟩] := by
  decide

/- ------------------------------------------------------------------ -/
/- Claim C8                                                            -/
/- ------------------------------------------------------------------ -/

theorem scanTokensAux_no_closer (fuel : Nat) : ∀ lp s,
    (∀ c ∈ s, c ≠ ']' ∧ c ≠ rbrace) → scanTokensAux fuel lp s = [] := by
  induction fuel with
  | zero => intro lp s _; rfl
  | succ f ih =>
    intro lp s h
    cases s with
    | nil => rfl
    | cons c rest =>
      have hrest : ∀ d ∈ rest, d ≠ ']' ∧ d ≠ rbrace :=
        fun d hd => h d (List.mem_cons_of_mem c hd)
      rw [scanTokensAux_cons]
      by_cases hc : c = '[' ∨ c = lbrace
      · rw [if_pos hc]
        cases hm : matchToken rest with
        | some tr =>
          obtain ⟨inner, cl, rem⟩ := tr
          obtain ⟨heq, -, hcl, -⟩ := matchToken_eq rest inner cl rem hm
          exfalso
          have hclmem : cl ∈ rest := by
            rw [heq]
            exact List.mem_append_right _ (List.mem_cons_self cl rem)
          rcases hcl with rfl | rfl
          · exact (hrest _ hclmem).1 rfl
          · exact (hrest _ hclmem).2 rfl
        | none => exact ih _ _ hrest
      · rw [if_neg hc]
        by_cases hn : c = '\n'
        · rw [if_pos hn]; exact ih _ _ hrest
        · rw [if_neg hn]; exact ih _ _ hrest

/-- C8: the three core functions are total structurally recursive
functions of the embedding, defined on every finite string; on the empty
string extraction and section-splitting return empty lists, and on any
string with no closing delimiter at all (malformed or unbalanced brackets)
no field is emitted and composition preserves the text literally. -/
theorem C8_theorem :
    extractFields [] = [] ∧ parsePromptSections [] = [] ∧
    ∀ s values, (∀ c ∈ s, c ≠ ']' ∧ c ≠ rbrace) →
      extractFields s = [] ∧ buildPrompt s (extractFields s) values = s := by
  refine ⟨rfl, rfl, ?_⟩
  intro s values h
  have he : extractFields s = [] := by
    unfold extractFields scanTokens
    rw [scanTokensAux_no_closer s.length [] s h]
    rfl
  exact ⟨he, by rw [he]; rfl⟩

/-- C8 witness: the unbalanced-bracket body of three openers and a brace is
extracted to no field and composed to itself. -/
theorem C8_witness :
    extractFields "[[[ \x7b".toList = [] ∧
    buildPrompt "[[[ \x7b".toList (extractFields "[[[ \x7b".toList) [] =
      "[[[ \x7b".toList :=
  (C8_theorem.2.2 "[[[ \x7b".toList [] (by decide))

/- ------------------------------------------------------------------ -/
/- Claim C9                                                            -/
/- ------------------------------------------------------------------ -/

/-- C9: dollar patterns in a user value are interpreted by the
replacement-pattern rules of String.replace rather than inserted
literally: a doubled dollar collapses to a single dollar (so the composed
text differs from the literal substitution of the value), and a
dollar-ampersand value expands to the matched token text itself. -/
theorem C9_theorem :
    buildPrompt "x [a] y".toList (extractFields "x [a] y".toList)
      [("field_0".toList, "$$".toList)] = "x $ y".toList ∧
    replaceFirstLiteral "x [a] y".toList "[a]".toList "$$".toList =
      "x $$ y".toList ∧
    buildPrompt "x [a] y".toList (extractFields "x [a] y".toList)
      [("field_0".toList, "$$".toList)] ≠ "x $$ y".toList ∧
    buildPrompt "x [a] y".toList (extractFields "x [a] y".toList)
      [("field_0".toList, "$&".toList)] = "x [a] y".toList := by
  refine ⟨by decide, by decide, by decide, by decide⟩

/- ------------------------------------------------------------------ -/
/- Claim C10                                                           -/
/- ------------------------------------------------------------------ -/

/-- C10: because each replacement searches the already-substituted working
copy, when the value of the first field contains the second field's token
text, the second replacement lands inside the first field's substituted
value and the second field's actual token in the body stays unreplaced:
the two extracted tokens are the bracketed a and b, yet composing with a
first value containing the bracketed b and second value Z puts Z inside
the first value and leaves the trailing bracketed b intact. -/
theorem C10_theorem :
    (extractFields "[a] and [b]".toList).map FormField.original =
      ["[a]".toList, "[b]".toList] ∧
    buildPrompt "[a] and [b]".toList (extractFields "[a] and [b]".toList)
      [("field_0".toList, "x[b]y".toList), ("field_1".toList, "Z".toList)] =
      "xZy and [b]".toList ∧
    "xZy and [b]".toList ≠ "x[b]y and Z".toList := by
  refine ⟨by decide, by decide, by decide⟩

/- ------------------------------------------------------------------ -/
/- Claim C5                                                            -/
/- ------------------------------------------------------------------ -/

theorem splitAux_cons (acc : List Char) (c : Char) (rest : List Char) :
    splitAux acc (c :: rest) =
      if isBoundaryB (c :: rest) = true ∧ acc ≠ [] then acc :: splitAux [c] rest
      else splitAux (acc ++ [c]) rest := rfl

theorem splitAux_boundary_append (pre : List Char) : ∀ acc c bs,
    '【' ∉ pre → acc ≠ [] → isBoundaryB (c :: bs) = true →
    splitAux acc (pre ++ c :: bs) = (acc ++ pre) :: splitAux [c] bs := by
  induction pre with
  | nil =>
    intro acc c bs _ hacc hb
    show splitAux acc (c :: bs) = (acc ++ []) :: splitAux [c] bs
    rw [List.append_nil]
    conv_lhs => rw [splitAux_cons]
    rw [if_pos ⟨hb, hacc⟩]
  | cons p ps ih =>
    intro acc c bs hpre hacc hb
    have hp : p ≠ '【' := fun hh => hpre (hh ▸ List.mem_cons_self p ps)
    show splitAux acc (p :: (ps ++ c :: bs)) = (acc ++ p :: ps) :: splitAux [c] bs
    have hnb : ¬ (isBoundaryB (p :: (ps ++ c :: bs)) = true ∧ acc ≠ []) := by
      rintro ⟨hbound, -⟩
      simp [isBoundaryB, hp] at hbound
    conv_lhs => rw [splitAux_cons]
    rw [if_neg hnb,
      ih (acc ++ [p]) c bs (fun hh => hpre (List.mem_cons_of_mem p hh)) (by simp) hb]
    congr 1
    simp

theorem splitAux_start (c : Char) (bs : List Char) :
    splitAux [] (c :: bs) = splitAux [c] bs := by
  conv_lhs => rw [splitAux_cons]
  rw [if_neg (fun h => h.2 rfl)]
  rfl

/-- C5 counterexample: a marker heading occurring in the middle of a line
is a section boundary: the body of two letters followed directly by a
marker heading and its content splits into the default role section for
the two letters and a separate section for the heading, contradicting the
claim that only line-initial headings start sections. -/
theorem C5_counterexample :
    parsePromptSections "ab【X】\nc".toList =
      [⟨"あなたの役割".toList, "ab".toList, "🤖".toList⟩,
       ⟨"X".toList, "c".toList, "📄".toList⟩] := by decide

/-- C5 (amended): parsePromptSections splits the body at every occurrence
of a marker heading with non-empty title, wherever it occurs — at the
beginning of a line or in the middle of one — using a lookahead split so
the boundary text starts the new chunk: any marker-free non-empty leading
text before a boundary becomes (when it trims to something non-empty) the
default role section and the rest is parsed unchanged. -/
theorem C5_theorem (pre b : List Char) (hpre : pre ≠ []) (hm : '【' ∉ pre)
    (hb : isBoundaryB b = true) :
    parsePromptSections (pre ++ b) =
      (if jsTrim pre = [] then []
       else [⟨"あなたの役割".toList, jsTrim pre, "🤖".toList⟩]) ++
      parsePromptSections b := by
  cases b with
  | nil => simp [isBoundaryB] at hb
  | cons c bs =>
    cases pre with
    | nil => exact absurd rfl hpre
    | cons p ps =>
      have hp : p ≠ '【' := fun hh => hm (hh ▸ List.mem_cons_self p ps)
      unfold parsePromptSections
      have h1 : splitAux [] ((p :: ps) ++ c :: bs) = (p :: ps) :: splitAux [c] bs := by
        show splitAux [] (p :: (ps ++ c :: bs)) = (p :: ps) :: splitAux [c] bs
        conv_lhs => rw [splitAux_cons]
        rw [if_neg (fun h => h.2 rfl)]
        exact splitAux_boundary_append ps [p] c bs
          (fun hh => hm (List.mem_cons_of_mem p hh)) (by simp) hb
      rw [h1, List.filterMap_cons, splitAux_start c bs]
      have hmm0 : markerMatch (p :: ps) = none := by
        unfold markerMatch
        dsimp only
        rw [if_neg hp]
      have hsec : sectionOfPart (p :: ps) =
          if jsTrim (p :: ps) = [] then none
          else some ⟨"あなたの役割".toList, jsTrim (p :: ps), "🤖".toList⟩ := by
        unfold sectionOfPart
        rw [hmm0]
      rw [hsec]
      by_cases ht : jsTrim (p :: ps) = []
      · rw [if_pos ht, if_pos ht]; simp
      · rw [if_neg ht, if_neg ht]; simp

/-- C5 witness: the amended split equality at a concrete mid-line
boundary. -/
theorem C5_witness :
    parsePromptSections ("ab ".toList ++ "【X】\nhello".toList) =
      (if jsTrim "ab ".toList = [] then []
       else [⟨"あなたの役割".toList, jsTrim "ab ".toList, "🤖".toList⟩]) ++
      parsePromptSections "【X】\nhello".toList :=
  C5_theorem "ab ".toList "【X】\nhello".toList (by decide) (by decide) (by decide)

end Prompt100
